import Mathlib

/-!
# urlshort: path-to-URL redirect handlers

A shallow embedding of `handler.go` (package `urlshort`).

* A Go `map[string]string` is an association list with unique keys; the three
  operations the source uses are `make`, index assignment and the comma-ok
  lookup.
* An `http.Handler` is observed through the calls it makes on its external
  collaborators: `http.Redirect` and the `ServeHTTP` of the fallback.  A
  handler is a function from the response writer and the request to the list
  of those calls, in program order.
* `yaml.UnmarshalStrict` belongs to `gopkg.in/yaml.v2`, which is not part of
  the repository.  `parseYaml` and `YAMLHandler` take it as a parameter; a
  model of it is given separately and used only where a claim is about the
  parser itself.
* Line 65 of the source writes the result type of `buildMap` as
  `map[string][string]`; the body builds a `map[string]string` and the caller
  hands it to `MapHandler`, so that is the type embedded here.
-/

namespace urlshort

/-! ## Go maps from string to string -/

/-- A Go `map[string]string`: an association list, keys unique by construction. -/
abbrev GoMap := List (String × String)

namespace GoMap

/-- The Go expression `make(map[string]string)`. -/
def make : GoMap := []

/-- The Go statement `m[k] = v`: overwrite the entry of `k`, or add one. -/
def assign : GoMap → String → String → GoMap
  | [], k, v => [(k, v)]
  | (k', v') :: rest, k, v =>
    if k' = k then (k, v) :: rest else (k', v') :: assign rest k v

/-- The Go expression `v, ok := m[k]`: `some v` when `ok`, `none` otherwise. -/
def lookup : GoMap → String → Option String
  | [], _ => none
  | (k', v') :: rest, k => if k' = k then some v' else lookup rest k

/-- The keys of the map. -/
def keys (m : GoMap) : List String := m.map Prod.fst

/-- The Go expression `len(m)`. -/
def len (m : GoMap) : Nat := m.length

end GoMap

/-! ## Requests, handlers and the calls they make -/

/-- The fields of `net/url.URL` that the request line fills in. -/
structure URL where
  Path : String
  RawQuery : String
  deriving DecidableEq, Repr

/-- The fields of `net/http.Request` relevant to routing. `RequestURI` is the
request target as the client sent it; `URL` is its parsed form. -/
structure Request where
  Method : String
  RequestURI : String
  URL : URL
  Header : List (String × String)
  deriving DecidableEq, Repr

/-- The constant `http.StatusFound`. -/
def StatusFound : Nat := 302

/-- A call a handler makes on an external collaborator. `W` is the type of
response writers and `H` the type of fallback handlers. -/
inductive Call (W H : Type) where
  /-- The call `http.Redirect(w, r, url, code)`. -/
  | Redirect (w : W) (r : Request) (url : String) (code : Nat)
  /-- The call `h.ServeHTTP(w, r)`. -/
  | ServeHTTP (h : H) (w : W) (r : Request)
  deriving DecidableEq, Repr

/-- An `http.HandlerFunc`, observed through the calls it makes. -/
abbrev HandlerFunc (W H : Type) := W → Request → List (Call W H)

/-- The function `MapHandler` of `handler.go`. -/
def MapHandler {W H : Type} (pathsToUrls : GoMap) (fallback : H) : HandlerFunc W H :=
  fun w r =>
    let path := r.URL.Path
    match pathsToUrls.lookup path with
    | some dest => [Call.Redirect w r dest StatusFound]
    | none => [Call.ServeHTTP fallback w r]

/-- The struct `urlpath` of `handler.go`. -/
structure urlpath where
  path : String
  url : String
  deriving DecidableEq, Repr

/-- The function `buildMap` of `handler.go`. -/
def buildMap (paths : List urlpath) : GoMap :=
  paths.foldl (fun pathsToUrls path => pathsToUrls.assign path.path path.url) GoMap.make

/-- A Go byte slice. -/
abbrev Bytes := List UInt8

/-- The function `parseYaml` of `handler.go`. The parameter `unmarshalStrict`
is the call `yaml.UnmarshalStrict(yml, &paths)` on a nil slice: it gives the
value left in `paths` and the error (`none` for nil). -/
def parseYaml {E : Type} (unmarshalStrict : Bytes → List urlpath × Option E) (yml : Bytes) :
    List urlpath × Option E :=
  match unmarshalStrict yml with
  | (_, some err) => ([], some err)
  | (paths, none) => (paths, none)

/-- The function `YAMLHandler` of `handler.go`. The first component is the
handler (`none` for nil), the second the error (`none` for nil). -/
def YAMLHandler {W H E : Type} (unmarshalStrict : Bytes → List urlpath × Option E)
    (yml : Bytes) (fallback : H) : Option (HandlerFunc W H) × Option E :=
  match parseYaml unmarshalStrict yml with
  | (_, some e) => (none, some e)
  | (paths, none) =>
    let pathsToUrls := buildMap paths
    (some (MapHandler pathsToUrls fallback), none)

/-! ## The YAML decoder

`gopkg.in/yaml.v2` is an external dependency. The byte-level syntax (scanner,
parser, composer) is a parameter `scan`; the decoding of a composed document
into a `[]urlpath` is modelled below.
-/

/-- A composed YAML document, aliases and merge keys expanded. -/
inductive YamlNode where
  | null
  | scalar (value : String)
  | sequence (items : List YamlNode)
  | mapping (pairs : List (String × YamlNode))

/-- Why `yaml.UnmarshalStrict` failed. -/
inductive YamlError where
  /-- The bytes are not well-formed YAML. -/
  | malformed
  /-- A mapping key names no field of the struct (strict mode only). -/
  | unknownField (key : String)
  /-- A mapping key occurs twice (strict mode only). -/
  | duplicateField (key : String)
  /-- A node has the wrong kind for the Go value it is decoded into. -/
  | typeMismatch
  deriving DecidableEq, Repr

/-- A field of the struct decoded into: its Go name, the key its `yaml` tag
gives it, and the assignment to it. -/
structure StructField where
  goName : String
  yamlKey : String
  set : urlpath → String → urlpath

/-- Go exports an identifier exactly when its first character is upper case. -/
def isExported (goName : String) : Bool :=
  match goName.toList with
  | c :: _ => c.isUpper
  | [] => false

/-- The fields of `urlpath` as `handler.go` declares them (lines 26-29):
`path string` tagged `yaml:"path"` and `url string` tagged `yaml:"url"`. -/
def urlpathFields : List StructField :=
  [⟨"path", "path", fun u s => ⟨s, u.url⟩⟩, ⟨"url", "url", fun u s => ⟨u.path, s⟩⟩]

/-- The same two fields with exported Go names, the record design of section 6
of the specification. Not what `handler.go` declares. -/
def exportedFields : List StructField :=
  [⟨"Path", "path", fun u s => ⟨s, u.url⟩⟩, ⟨"Url", "url", fun u s => ⟨u.path, s⟩⟩]

/-- Modelled from the spec: the field lookup of `gopkg.in/yaml.v2`, which is
not under src/. Only exported fields are keys of a struct: a field with a
lower-case name is invisible to the decoder (section 9 of the specification). -/
def findField (fields : List StructField) (key : String) : Option StructField :=
  fields.find? (fun f => isExported f.goName && f.yamlKey == key)

/-- Modelled from the spec: the decoding of one YAML mapping into a `urlpath`
by `gopkg.in/yaml.v2` in strict mode, which is not under src/. Pairs are
taken in document order; `done` holds the keys already set. A key that names
no field, a repeated key, and a value that is not a scalar each fail the
decoding (sections 4.2 and 6: unknown fields and wrong types fail the load). -/
def decodeMapping (fields : List StructField) :
    List (String × YamlNode) → List String → urlpath → Except YamlError urlpath
  | [], _, out => .ok out
  | (key, value) :: rest, done, out =>
    match findField fields key with
    | none => .error (.unknownField key)
    | some f =>
      if key ∈ done then .error (.duplicateField key)
      else
        match value with
        | .scalar s => decodeMapping fields rest (key :: done) (f.set out s)
        | .null => decodeMapping fields rest (key :: done) (f.set out "")
        | _ => .error .typeMismatch

/-- Modelled from the spec: the decoding of one sequence item into a
`urlpath` by `gopkg.in/yaml.v2`, which is not under src/. The library has no
required fields: a field without a key keeps the zero value, and a null item
is the zero struct. -/
def decodeRecord (fields : List StructField) : YamlNode → Except YamlError urlpath
  | .mapping pairs => decodeMapping fields pairs [] ⟨"", ""⟩
  | .null => .ok ⟨"", ""⟩
  | _ => .error .typeMismatch

/-- Modelled from the spec: the decoding of the items of a sequence, in
document order, by `gopkg.in/yaml.v2`, which is not under src/. One failing
item fails the whole sequence. -/
def decodeRecords (fields : List StructField) : List YamlNode → Except YamlError (List urlpath)
  | [] => .ok []
  | item :: rest =>
    match decodeRecord fields item with
    | .error e => .error e
    | .ok u =>
      match decodeRecords fields rest with
      | .error e => .error e
      | .ok us => .ok (u :: us)

/-- Modelled from the spec: the decoding of a document into a `[]urlpath` by
`gopkg.in/yaml.v2`, which is not under src/. The document is a sequence of
records; an empty document leaves the slice nil. -/
def decodeDocument (fields : List StructField) : YamlNode → Except YamlError (List urlpath)
  | .sequence items => decodeRecords fields items
  | .null => .ok []
  | _ => .error .typeMismatch

/-- Modelled from the spec: `yaml.UnmarshalStrict(yml, &paths)` of
`gopkg.in/yaml.v2`, which is not under src/, for a struct with the given
fields. `scan` is the syntax layer: `none` for bytes that are not YAML. -/
def yamlUnmarshalStrict (scan : Bytes → Option YamlNode) (fields : List StructField)
    (yml : Bytes) : List urlpath × Option YamlError :=
  match scan yml with
  | none => ([], some .malformed)
  | some doc =>
    match decodeDocument fields doc with
    | .error e => ([], some e)
    | .ok paths => (paths, none)

/-! ## Example values -/

/-- The bytes of an ASCII text. -/
def asciiBytes (text : String) : Bytes := text.toList.map (fun c => UInt8.ofNat c.toNat)

/-- The document of the end-to-end scenario, as bytes. -/
def scenarioYaml : Bytes :=
  asciiBytes
    "- path: /golang\n  url: https://golang.org\n- path: /yaml-godoc\n  url: https://godoc.org/gopkg.in/yaml.v2\n"

/-- The document of the end-to-end scenario, composed: two records. -/
def scenarioDoc : YamlNode :=
  .sequence
    [.mapping [("path", .scalar "/golang"), ("url", .scalar "https://golang.org")],
     .mapping [("path", .scalar "/yaml-godoc"),
               ("url", .scalar "https://godoc.org/gopkg.in/yaml.v2")]]

/-- A syntax layer that knows the scenario document. -/
def scanScenario (yml : Bytes) : Option YamlNode :=
  if yml = scenarioYaml then some scenarioDoc else none

/-- The bytes of the document `- {}`: one record without fields. -/
def emptyRecordYaml : Bytes := asciiBytes "- \x7b\x7d"

/-- A syntax layer that knows the document `- {}`. -/
def scanEmptyRecord (yml : Bytes) : Option YamlNode :=
  if yml = emptyRecordYaml then some (.sequence [.mapping []]) else none

/-- The bytes of a document whose one record has the extra field `note`. -/
def extraFieldYaml : Bytes := asciiBytes "- path: /a\n  url: https://a.example\n  note: x\n"

/-- The fields of that record, in document order. -/
def extraFieldPairs : List (String × YamlNode) :=
  [("path", .scalar "/a"), ("url", .scalar "https://a.example"), ("note", .scalar "x")]

/-- A syntax layer that knows the document with the extra field. -/
def scanExtraField (yml : Bytes) : Option YamlNode :=
  if yml = extraFieldYaml then some (.sequence [.mapping extraFieldPairs]) else none

/-- A `GET` request for the given path, without query. -/
def getRequest (path : String) : Request := ⟨"GET", path, ⟨path, ""⟩, []⟩

/-- The request `GET /a?x=1`: path `/a`, query `x=1`. -/
def queryRequest : Request := ⟨"GET", "/a?x=1", ⟨"/a", "x=1"⟩, []⟩

/-- The request `CONNECT example.com:443`, whose URL has the empty path. -/
def connectRequest : Request := ⟨"CONNECT", "example.com:443", ⟨"", ""⟩, []⟩

/-- A mapping with two entries. -/
def exampleMap : GoMap := [("/golang", "https://golang.org"), ("/x", "https://x.example")]


/-! ## Lemmas about Go maps -/

namespace GoMap

theorem lookup_eq_none_iff (m : GoMap) (k : String) : m.lookup k = none ↔ k ∉ m.keys := by
  induction m with
  | nil => simp [lookup, keys]
  | cons e rest ih =>
    obtain ⟨k', v'⟩ := e
    by_cases h : k' = k
    · simp [lookup, keys, h]
    · have hne : ¬ k = k' := fun hk => h hk.symm
      simpa [lookup, keys, h, hne] using ih

theorem lookup_isSome_iff (m : GoMap) (k : String) :
    (∃ v, m.lookup k = some v) ↔ k ∈ m.keys := by
  have h := lookup_eq_none_iff m k
  cases hl : m.lookup k with
  | none => simpa [hl] using h
  | some v =>
    rw [hl] at h
    have hk : k ∈ m.keys := by
      by_contra hcon
      exact absurd (h.mpr hcon) (by simp)
    simp [hk]

theorem lookup_assign_self (m : GoMap) (k v : String) : (m.assign k v).lookup k = some v := by
  induction m with
  | nil => simp [assign, lookup]
  | cons e rest ih =>
    obtain ⟨k', v'⟩ := e
    by_cases h : k' = k
    · simp [assign, lookup, h]
    · simp [assign, lookup, h, ih]

theorem lookup_assign_ne (m : GoMap) (k v q : String) (hne : q ≠ k) :
    (m.assign k v).lookup q = m.lookup q := by
  induction m with
  | nil =>
    have hne' : ¬ k = q := fun hk => hne hk.symm
    simp [assign, lookup, hne']
  | cons e rest ih =>
    obtain ⟨k', v'⟩ := e
    by_cases h : k' = k
    · have hq : ¬ k = q := fun hk => hne hk.symm
      have hq' : ¬ k' = q := fun hk => hq (h ▸ hk)
      simp [assign, lookup, h, hq]
    · by_cases hq : k' = q
      · subst hq
        simp [assign, lookup, h]
      · simp [assign, lookup, h, hq, ih]

/-- Adding a key to a list of keys: nothing changes when it is there already. -/
theorem keys_assign (m : GoMap) (k v : String) :
    (m.assign k v).keys = if k ∈ m.keys then m.keys else m.keys ++ [k] := by
  induction m with
  | nil => simp [assign, keys]
  | cons e rest ih =>
    obtain ⟨k', v'⟩ := e
    by_cases h : k' = k
    · simp [assign, keys, h]
    · have hne : ¬ k = k' := fun hk => h hk.symm
      have ih' : List.map Prod.fst (assign rest k v)
          = if k ∈ List.map Prod.fst rest then List.map Prod.fst rest
            else List.map Prod.fst rest ++ [k] := ih
      by_cases hmem : k ∈ List.map Prod.fst rest
      · simp only [assign, keys, h, if_false, List.map_cons, List.mem_cons, hne, false_or]
        rw [ih']
        simp [hmem]
      · simp only [assign, keys, h, if_false, List.map_cons, List.mem_cons, hne, false_or]
        rw [ih']
        simp [hmem]

theorem mem_keys_assign (m : GoMap) (k v q : String) :
    q ∈ (m.assign k v).keys ↔ q ∈ m.keys ∨ q = k := by
  rw [keys_assign]
  by_cases hmem : k ∈ m.keys
  · simp only [hmem, if_true]
    constructor
    · intro hq
      exact Or.inl hq
    · rintro (hq | hq)
      · exact hq
      · exact hq ▸ hmem
  · simp [hmem]

theorem nodup_keys_assign (m : GoMap) (k v : String) (hm : m.keys.Nodup) :
    (m.assign k v).keys.Nodup := by
  rw [keys_assign]
  by_cases hmem : k ∈ m.keys
  · simpa [hmem] using hm
  · simp only [hmem, if_false]
    rw [List.nodup_append]
    refine ⟨hm, List.nodup_singleton k, ?_⟩
    intro a ha hb
    have hak : a = k := by simpa using hb
    exact hmem (hak ▸ ha)

end GoMap

/-! ## Lemmas about `buildMap` -/

/-- The loop of `buildMap`, started from any map. -/
theorem lookup_foldl_absent (post : List urlpath) (m : GoMap) (p : String)
    (habs : ∀ x ∈ post, x.path ≠ p) :
    (post.foldl (fun acc e => acc.assign e.path e.url) m).lookup p = m.lookup p := by
  induction post generalizing m with
  | nil => rfl
  | cons e rest ih =>
    have he : e.path ≠ p := habs e (List.mem_cons_self e rest)
    have hrest : ∀ x ∈ rest, x.path ≠ p := fun x hx => habs x (List.mem_cons_of_mem e hx)
    rw [List.foldl_cons, ih (m.assign e.path e.url) hrest]
    exact GoMap.lookup_assign_ne m e.path e.url p (fun h => he h.symm)

theorem lookup_buildMap_split (pre post : List urlpath) (e : urlpath)
    (hlast : ∀ x ∈ post, x.path ≠ e.path) :
    (buildMap (pre ++ e :: post)).lookup e.path = some e.url := by
  unfold buildMap
  rw [List.foldl_append, List.foldl_cons, lookup_foldl_absent post _ e.path hlast]
  exact GoMap.lookup_assign_self _ e.path e.url

theorem exists_last_occurrence (paths : List urlpath) (p : String)
    (hocc : p ∈ paths.map urlpath.path) :
    ∃ pre e post, paths = pre ++ e :: post ∧ e.path = p ∧ ∀ x ∈ post, x.path ≠ p := by
  induction paths with
  | nil => simp at hocc
  | cons a rest ih =>
    by_cases hrest : p ∈ rest.map urlpath.path
    · obtain ⟨pre, e, post, hsplit, hp, hlast⟩ := ih hrest
      exact ⟨a :: pre, e, post, by simp [hsplit], hp, hlast⟩
    · have ha : a.path = p := by
        simp only [List.map_cons, List.mem_cons] at hocc
        rcases hocc with h | h
        · exact h.symm
        · exact absurd h hrest
      refine ⟨[], a, rest, by simp, ha, ?_⟩
      intro x hx hxp
      exact hrest (List.mem_map.mpr ⟨x, hx, hxp⟩)

theorem mem_keys_foldl (paths : List urlpath) (m : GoMap) (k : String) :
    k ∈ (paths.foldl (fun acc e => acc.assign e.path e.url) m).keys ↔
      k ∈ m.keys ∨ k ∈ paths.map urlpath.path := by
  induction paths generalizing m with
  | nil => simp
  | cons e rest ih =>
    rw [List.foldl_cons, ih, GoMap.mem_keys_assign]
    simp only [List.map_cons, List.mem_cons]
    tauto

theorem nodup_keys_foldl (paths : List urlpath) (m : GoMap) (hm : m.keys.Nodup) :
    (paths.foldl (fun acc e => acc.assign e.path e.url) m).keys.Nodup := by
  induction paths generalizing m with
  | nil => simpa using hm
  | cons e rest ih =>
    rw [List.foldl_cons]
    exact ih _ (GoMap.nodup_keys_assign m e.path e.url hm)

theorem len_buildMap (paths : List urlpath) :
    (buildMap paths).len = (paths.map urlpath.path).dedup.length := by
  have hnodup : (buildMap paths).keys.Nodup :=
    nodup_keys_foldl paths GoMap.make (by simp [GoMap.make, GoMap.keys])
  have hmem : ∀ k, k ∈ (buildMap paths).keys ↔ k ∈ paths.map urlpath.path := by
    intro k
    have h := mem_keys_foldl paths GoMap.make k
    simpa [GoMap.make, GoMap.keys, buildMap] using h
  have hset : (buildMap paths).keys.toFinset = (paths.map urlpath.path).toFinset := by
    ext k
    simp only [List.mem_toFinset]
    exact hmem k
  have hlen : (buildMap paths).len = (buildMap paths).keys.length := by
    simp [GoMap.len, GoMap.keys]
  rw [hlen, ← List.toFinset_card_of_nodup hnodup, hset, List.card_toFinset]

theorem mem_keys_buildMap (paths : List urlpath) (k : String) :
    k ∈ (buildMap paths).keys ↔ k ∈ paths.map urlpath.path := by
  have h := mem_keys_foldl paths GoMap.make k
  simpa [GoMap.make, GoMap.keys, buildMap] using h

theorem nodup_keys_buildMap (paths : List urlpath) : (buildMap paths).keys.Nodup :=
  nodup_keys_foldl paths GoMap.make (by simp [GoMap.make, GoMap.keys])

/-! ## Lemmas about the handlers -/

theorem parseYaml_of_error {E : Type} (unmarshalStrict : Bytes → List urlpath × Option E)
    (yml : Bytes) (left : List urlpath) (e : E) (hu : unmarshalStrict yml = (left, some e)) :
    parseYaml unmarshalStrict yml = ([], some e) := by
  simp [parseYaml, hu]

theorem parseYaml_ok_inv {E : Type} (unmarshalStrict : Bytes → List urlpath × Option E)
    (yml : Bytes) (paths : List urlpath)
    (hp : parseYaml unmarshalStrict yml = (paths, none)) :
    unmarshalStrict yml = (paths, none) := by
  unfold parseYaml at hp
  rcases hu : unmarshalStrict yml with ⟨left, _ | err⟩
  · rw [hu] at hp
    simpa using hp
  · rw [hu] at hp
    simp at hp

theorem YAMLHandler_of_error {W H E : Type} (unmarshalStrict : Bytes → List urlpath × Option E)
    (yml : Bytes) (fallback : H) (e : E)
    (hp : parseYaml unmarshalStrict yml = ([], some e)) :
    (YAMLHandler unmarshalStrict yml fallback : Option (HandlerFunc W H) × Option E)
      = (none, some e) := by
  simp [YAMLHandler, hp]

theorem YAMLHandler_of_ok {W H E : Type} (unmarshalStrict : Bytes → List urlpath × Option E)
    (yml : Bytes) (fallback : H) (paths : List urlpath)
    (hp : parseYaml unmarshalStrict yml = (paths, none)) :
    (YAMLHandler unmarshalStrict yml fallback : Option (HandlerFunc W H) × Option E)
      = (some (MapHandler (buildMap paths) fallback), none) := by
  simp [YAMLHandler, hp]

/-! ## Lemmas about the YAML decoder -/

theorem findField_none_of_key (fields : List StructField) (key : String)
    (hkey : ∀ f ∈ fields, f.yamlKey ≠ key) : findField fields key = none := by
  unfold findField
  rw [List.find?_eq_none]
  intro f hf
  have h := hkey f hf
  simp [h]

theorem findField_urlpathFields (key : String) : findField urlpathFields key = none := by
  have h1 : isExported "path" = false := by decide
  have h2 : isExported "url" = false := by decide
  simp [findField, urlpathFields, h1, h2]

theorem decodeMapping_unknown (fields : List StructField) (pairs : List (String × YamlNode))
    (done : List String) (out : urlpath)
    (hunk : ∃ kv ∈ pairs, findField fields kv.1 = none) :
    ∃ e, decodeMapping fields pairs done out = .error e := by
  induction pairs generalizing done out with
  | nil =>
    obtain ⟨kv, hkv, _⟩ := hunk
    simp at hkv
  | cons head rest ih =>
    obtain ⟨key, value⟩ := head
    cases hf : findField fields key with
    | none => exact ⟨.unknownField key, by simp [decodeMapping, hf]⟩
    | some f =>
      have hrest : ∃ kv ∈ rest, findField fields kv.1 = none := by
        obtain ⟨kv, hkv, hnone⟩ := hunk
        rcases List.mem_cons.mp hkv with h | h
        · rw [h] at hnone
          rw [hf] at hnone
          simp at hnone
        · exact ⟨kv, h, hnone⟩
      by_cases hdone : key ∈ done
      · exact ⟨.duplicateField key, by simp [decodeMapping, hf, hdone]⟩
      · cases value with
        | scalar s =>
          obtain ⟨e, he⟩ := ih (key :: done) (f.set out s) hrest
          exact ⟨e, by simp [decodeMapping, hf, hdone, he]⟩
        | null =>
          obtain ⟨e, he⟩ := ih (key :: done) (f.set out "") hrest
          exact ⟨e, by simp [decodeMapping, hf, hdone, he]⟩
        | sequence items => exact ⟨.typeMismatch, by simp [decodeMapping, hf, hdone]⟩
        | mapping inner => exact ⟨.typeMismatch, by simp [decodeMapping, hf, hdone]⟩

theorem decodeRecords_error (fields : List StructField) (items : List YamlNode)
    (item : YamlNode) (hmem : item ∈ items)
    (hbad : ∃ e, decodeRecord fields item = .error e) :
    ∃ e, decodeRecords fields items = .error e := by
  induction items with
  | nil => simp at hmem
  | cons head rest ih =>
    cases hh : decodeRecord fields head with
    | error e => exact ⟨e, by simp [decodeRecords, hh]⟩
    | ok u =>
      have hrest : item ∈ rest := by
        rcases List.mem_cons.mp hmem with h | h
        · obtain ⟨e, he⟩ := hbad
          rw [h, hh] at he
          simp at he
        · exact h
      obtain ⟨e, he⟩ := ih hrest
      exact ⟨e, by simp [decodeRecords, hh, he]⟩

theorem decodeMapping_urlpathFields_ok (pairs : List (String × YamlNode)) (done : List String)
    (out u : urlpath) (hok : decodeMapping urlpathFields pairs done out = .ok u) :
    pairs = [] ∧ u = out := by
  cases pairs with
  | nil =>
    simp only [decodeMapping, Except.ok.injEq] at hok
    exact ⟨rfl, hok.symm⟩
  | cons head rest =>
    obtain ⟨key, value⟩ := head
    simp [decodeMapping, findField_urlpathFields] at hok

theorem decodeRecord_urlpathFields_ok (item : YamlNode) (u : urlpath)
    (hok : decodeRecord urlpathFields item = .ok u) : u = ⟨"", ""⟩ := by
  cases item with
  | null =>
    simp only [decodeRecord, Except.ok.injEq] at hok
    exact hok.symm
  | scalar s => simp [decodeRecord] at hok
  | sequence items => simp [decodeRecord] at hok
  | mapping pairs =>
    simp only [decodeRecord] at hok
    exact (decodeMapping_urlpathFields_ok pairs [] _ u hok).2

theorem decodeRecords_urlpathFields_ok (items : List YamlNode) (us : List urlpath)
    (hok : decodeRecords urlpathFields items = .ok us) : ∀ u ∈ us, u = ⟨"", ""⟩ := by
  induction items generalizing us with
  | nil =>
    simp only [decodeRecords, Except.ok.injEq] at hok
    subst hok
    simp
  | cons head rest ih =>
    unfold decodeRecords at hok
    cases hh : decodeRecord urlpathFields head with
    | error e =>
      rw [hh] at hok
      simp at hok
    | ok u0 =>
      rw [hh] at hok
      cases hr : decodeRecords urlpathFields rest with
      | error e =>
        rw [hr] at hok
        simp at hok
      | ok us0 =>
        rw [hr] at hok
        simp only [Except.ok.injEq] at hok
        subst hok
        intro u hu
        rcases List.mem_cons.mp hu with h | h
        · rw [h]
          exact decodeRecord_urlpathFields_ok head u0 hh
        · exact ih us0 hr u h

theorem yamlUnmarshalStrict_urlpathFields_ok (scan : Bytes → Option YamlNode) (yml : Bytes)
    (paths : List urlpath)
    (hok : yamlUnmarshalStrict scan urlpathFields yml = (paths, none)) :
    ∀ u ∈ paths, u = ⟨"", ""⟩ := by
  unfold yamlUnmarshalStrict at hok
  cases hs : scan yml with
  | none =>
    rw [hs] at hok
    simp at hok
  | some doc =>
    rw [hs] at hok
    cases hd : decodeDocument urlpathFields doc with
    | error e =>
      simp only [hd] at hok
      simp at hok
    | ok us =>
      simp only [hd, Prod.mk.injEq, and_true] at hok
      subst hok
      cases doc with
      | null =>
        simp only [decodeDocument, Except.ok.injEq] at hd
        subst hd
        simp
      | scalar s => simp [decodeDocument] at hd
      | sequence items =>
        simp only [decodeDocument] at hd
        exact decodeRecords_urlpathFields_ok items us hd
      | mapping pairs => simp [decodeDocument] at hd

theorem foldl_zero_entries (paths : List urlpath) (hzero : ∀ e ∈ paths, e = ⟨"", ""⟩) :
    paths.foldl (fun (acc : GoMap) e => acc.assign e.path e.url) [("", "")] = [("", "")] := by
  induction paths with
  | nil => rfl
  | cons a rest ih =>
    have ha : a = ⟨"", ""⟩ := hzero a (List.mem_cons_self a rest)
    have hrest : ∀ e ∈ rest, e = ⟨"", ""⟩ := fun e he => hzero e (List.mem_cons_of_mem a he)
    subst ha
    rw [List.foldl_cons]
    simpa [GoMap.assign] using ih hrest

/-- The map built from entries that all have the empty path and the empty
url: empty for no entry, the one pair of empty strings otherwise. -/
theorem buildMap_zero_entries (paths : List urlpath) (hzero : ∀ e ∈ paths, e = ⟨"", ""⟩) :
    (paths = [] → buildMap paths = []) ∧ (paths ≠ [] → buildMap paths = [("", "")]) := by
  constructor
  · intro h
    subst h
    rfl
  · intro h
    cases paths with
    | nil => exact absurd rfl h
    | cons a rest =>
      have ha : a = ⟨"", ""⟩ := hzero a (List.mem_cons_self a rest)
      have hrest : ∀ e ∈ rest, e = ⟨"", ""⟩ := fun e he => hzero e (List.mem_cons_of_mem a he)
      subst ha
      unfold buildMap
      rw [List.foldl_cons]
      simpa [GoMap.assign, GoMap.make] using foldl_zero_entries rest hrest

/-- What the code does on every document that loads: `urlpath` has no
exported field, so every parsed entry has the empty path and the empty url.
The map built by `buildMap` is empty when the document has no record and is
the one pair of empty strings as soon as it has one. The handler hands every
request whose path is not empty to the fallback, and, once the document has a
record, redirects every request whose path is empty to the empty url. -/
theorem parseYaml_zero_entries (scan : Bytes → Option YamlNode) (yml : Bytes)
    (paths : List urlpath)
    (hok : parseYaml (yamlUnmarshalStrict scan urlpathFields) yml = (paths, none)) :
    (∀ e ∈ paths, e = ⟨"", ""⟩) ∧
      (paths = [] → buildMap paths = []) ∧
      (paths ≠ [] → buildMap paths = [("", "")]) ∧
      ∀ (W H : Type) (fallback : H) (w : W) (r : Request),
        (YAMLHandler (yamlUnmarshalStrict scan urlpathFields) yml fallback
            : Option (HandlerFunc W H) × Option YamlError)
          = (some (MapHandler (buildMap paths) fallback), none) ∧
        (r.URL.Path ≠ "" →
          MapHandler (buildMap paths) fallback w r = [Call.ServeHTTP fallback w r]) ∧
        (paths ≠ [] → r.URL.Path = "" →
          MapHandler (buildMap paths) fallback w r = [Call.Redirect w r "" 302]) := by
  have hzero : ∀ e ∈ paths, e = ⟨"", ""⟩ :=
    yamlUnmarshalStrict_urlpathFields_ok scan yml paths (parseYaml_ok_inv _ yml paths hok)
  obtain ⟨hnil, hcons⟩ := buildMap_zero_entries paths hzero
  refine ⟨hzero, hnil, hcons, ?_⟩
  intro W H fallback w r
  refine ⟨YAMLHandler_of_ok _ yml fallback paths hok, ?_, ?_⟩
  · intro hr
    have hr' : ¬ ("" : String) = r.URL.Path := fun h => hr h.symm
    by_cases hp : paths = []
    · simp [MapHandler, hnil hp, GoMap.lookup]
    · simp [MapHandler, hcons hp, GoMap.lookup, hr']
  · intro hp hr
    simp [MapHandler, hcons hp, GoMap.lookup, hr, StatusFound]

/-! ## Claims about `MapHandler` -/

/-- C1: for every mapping, fallback and request whose path is a key of the
mapping, the handler makes exactly one call, `http.Redirect` to the mapped
url with status 302, and makes no call on the fallback. -/
theorem MapHandler_hit {W H : Type} (m : GoMap) (fallback : H) (w : W) (r : Request)
    (dest : String) (hkey : m.lookup r.URL.Path = some dest) :
    MapHandler m fallback w r = [Call.Redirect w r dest 302] ∧
      ∀ (h : H) (w' : W) (r' : Request),
        Call.ServeHTTP h w' r' ∉ MapHandler m fallback w r := by
  have hrun : MapHandler m fallback w r = [Call.Redirect w r dest 302] := by
    simp [MapHandler, hkey, StatusFound]
  refine ⟨hrun, ?_⟩
  intro h w' r'
  simp [hrun]

/-- Witness for C1: the key `/golang` of a two-entry mapping. -/
theorem MapHandler_hit_witness :
    exampleMap.lookup (getRequest "/golang").URL.Path = some "https://golang.org" ∧
      ((MapHandler exampleMap "fallback" () (getRequest "/golang") : List (Call Unit String))
          = [Call.Redirect () (getRequest "/golang") "https://golang.org" 302] ∧
        ∀ (h : String) (w' : Unit) (r' : Request),
          Call.ServeHTTP h w' r' ∉ MapHandler exampleMap "fallback" () (getRequest "/golang")) :=
  ⟨by decide,
    MapHandler_hit exampleMap "fallback" () (getRequest "/golang") "https://golang.org"
      (by decide)⟩

/-- C2: for every mapping, fallback and request whose path is not a key of the
mapping, the handler makes exactly one call, the fallback's `ServeHTTP` with
the same writer and request, and no `http.Redirect`; the result is an
ordinary value of the handler, not an error. -/
theorem MapHandler_miss {W H : Type} (m : GoMap) (fallback : H) (w : W) (r : Request)
    (hmiss : r.URL.Path ∉ m.keys) :
    MapHandler m fallback w r = [Call.ServeHTTP fallback w r] ∧
      ∀ (w' : W) (r' : Request) (url : String) (code : Nat),
        Call.Redirect w' r' url code ∉ MapHandler m fallback w r := by
  have hnone : m.lookup r.URL.Path = none := (GoMap.lookup_eq_none_iff m r.URL.Path).mpr hmiss
  have hrun : MapHandler m fallback w r = [Call.ServeHTTP fallback w r] := by
    simp [MapHandler, hnone]
  refine ⟨hrun, ?_⟩
  intro w' r' url code
  simp [hrun]

/-- Witness for C2: the path `/missing` is no key of the two-entry mapping. -/
theorem MapHandler_miss_witness :
    (getRequest "/missing").URL.Path ∉ exampleMap.keys ∧
      ((MapHandler exampleMap "fallback" () (getRequest "/missing") : List (Call Unit String))
          = [Call.ServeHTTP "fallback" () (getRequest "/missing")] ∧
        ∀ (w' : Unit) (r' : Request) (url : String) (code : Nat),
          Call.Redirect w' r' url code ∉
            (MapHandler exampleMap "fallback" () (getRequest "/missing")
              : List (Call Unit String))) :=
  ⟨by decide, MapHandler_miss exampleMap "fallback" () (getRequest "/missing") (by decide)⟩

/-- C8, as stated, fails: the request `GET /a?x=1` carries the target
`/a?x=1`, which is no key of the mapping with the single key `/a`, yet the
handler compares the parsed path `/a` and redirects; it does not delegate. -/
theorem MapHandler_query_counterexample :
    queryRequest.RequestURI = "/a?x=1" ∧
      "/a?x=1" ∉ GoMap.keys [("/a", "https://a.example")] ∧
      (MapHandler [("/a", "https://a.example")] "fallback" () queryRequest
          : List (Call Unit String))
        = [Call.Redirect () queryRequest "https://a.example" 302] ∧
      (MapHandler [("/a", "https://a.example")] "fallback" () queryRequest
          : List (Call Unit String))
        ≠ [Call.ServeHTTP "fallback" () queryRequest] := by
  decide

/-- C8, amended: the handler redirects exactly when the parsed path of the
request, `r.URL.Path`, is identical to a key of the mapping, and delegates
exactly when it is not. The comparison is case-sensitive and keeps a trailing
slash, and nothing is cut off the path: with the single key `/a`, the paths
`/A`, `/a/` and `/a?x=1` delegate. The query of the request is not part of
the path: a request with path `/a` redirects whatever its query is. -/
theorem MapHandler_exact_match {W H : Type} (m : GoMap) (fallback : H) (w : W) (r : Request) :
    ((∃ dest, MapHandler m fallback w r = [Call.Redirect w r dest 302]) ↔
        r.URL.Path ∈ m.keys) ∧
      (MapHandler m fallback w r = [Call.ServeHTTP fallback w r] ↔ r.URL.Path ∉ m.keys) ∧
      (∀ (dest method uri query : String) (header : List (String × String)),
        MapHandler [("/a", dest)] fallback w ⟨method, uri, ⟨"/A", query⟩, header⟩
            = [Call.ServeHTTP fallback w ⟨method, uri, ⟨"/A", query⟩, header⟩] ∧
          MapHandler [("/a", dest)] fallback w ⟨method, uri, ⟨"/a/", query⟩, header⟩
            = [Call.ServeHTTP fallback w ⟨method, uri, ⟨"/a/", query⟩, header⟩] ∧
          MapHandler [("/a", dest)] fallback w ⟨method, uri, ⟨"/a?x=1", query⟩, header⟩
            = [Call.ServeHTTP fallback w ⟨method, uri, ⟨"/a?x=1", query⟩, header⟩] ∧
          MapHandler [("/a", dest)] fallback w ⟨method, uri, ⟨"/a", query⟩, header⟩
            = [Call.Redirect w ⟨method, uri, ⟨"/a", query⟩, header⟩ dest 302]) := by
  refine ⟨?_, ?_, ?_⟩
  · rw [← GoMap.lookup_isSome_iff]
    cases hl : m.lookup r.URL.Path with
    | none => simp [MapHandler, hl]
    | some v => simp [MapHandler, hl, StatusFound]
  · rw [← GoMap.lookup_eq_none_iff]
    cases hl : m.lookup r.URL.Path with
    | none => simp [MapHandler, hl]
    | some v => simp [MapHandler, hl]
  · intro dest method uri query header
    have h1 : ¬ ("/a" : String) = "/A" := by decide
    have h2 : ¬ ("/a" : String) = "/a/" := by decide
    have h3 : ¬ ("/a" : String) = "/a?x=1" := by decide
    simp [MapHandler, GoMap.lookup, StatusFound, h1, h2, h3]

/-- C9: the handler reads nothing of the request but its path. Two requests
with the same path, whatever their method, target, query and headers, are
either both redirected to the same destination with status 302 or both handed
to the fallback. -/
theorem MapHandler_path_only {W H : Type} (m : GoMap) (fallback : H) (w1 w2 : W)
    (r1 r2 : Request) (hpath : r1.URL.Path = r2.URL.Path) :
    (∃ dest, MapHandler m fallback w1 r1 = [Call.Redirect w1 r1 dest 302] ∧
        MapHandler m fallback w2 r2 = [Call.Redirect w2 r2 dest 302]) ∨
      (MapHandler m fallback w1 r1 = [Call.ServeHTTP fallback w1 r1] ∧
        MapHandler m fallback w2 r2 = [Call.ServeHTTP fallback w2 r2]) := by
  cases hl : m.lookup r1.URL.Path with
  | none =>
    right
    have hl2 : m.lookup r2.URL.Path = none := hpath ▸ hl
    simp [MapHandler, hl, hl2]
  | some v =>
    left
    have hl2 : m.lookup r2.URL.Path = some v := hpath ▸ hl
    exact ⟨v, by simp [MapHandler, hl, StatusFound], by simp [MapHandler, hl2, StatusFound]⟩

/-- Witness for C9: a `GET` and a `POST` with a header and a query, both for
the path `/golang`. -/
theorem MapHandler_path_only_witness :
    (getRequest "/golang").URL.Path
        = (Request.mk "POST" "/golang?x=1" ⟨"/golang", "x=1"⟩ [("Accept", "text/html")]).URL.Path ∧
      ((∃ dest,
          (MapHandler exampleMap "fallback" () (getRequest "/golang") : List (Call Unit String))
              = [Call.Redirect () (getRequest "/golang") dest 302] ∧
            MapHandler exampleMap "fallback" ()
                (Request.mk "POST" "/golang?x=1" ⟨"/golang", "x=1"⟩ [("Accept", "text/html")])
              = [Call.Redirect ()
                  (Request.mk "POST" "/golang?x=1" ⟨"/golang", "x=1"⟩ [("Accept", "text/html")])
                  dest 302]) ∨
        ((MapHandler exampleMap "fallback" () (getRequest "/golang") : List (Call Unit String))
            = [Call.ServeHTTP "fallback" () (getRequest "/golang")] ∧
          MapHandler exampleMap "fallback" ()
              (Request.mk "POST" "/golang?x=1" ⟨"/golang", "x=1"⟩ [("Accept", "text/html")])
            = [Call.ServeHTTP "fallback" ()
                (Request.mk "POST" "/golang?x=1" ⟨"/golang", "x=1"⟩
                  [("Accept", "text/html")])])) :=
  ⟨rfl,
    MapHandler_path_only exampleMap "fallback" () () (getRequest "/golang")
      (Request.mk "POST" "/golang?x=1" ⟨"/golang", "x=1"⟩ [("Accept", "text/html")]) rfl⟩

/-! ## Claims about `buildMap` -/

/-- C3: last write wins. For every sequence of entries and every path that
occurs in it, the sequence splits at the last entry with that path, and
`buildMap` maps the path to the url of that entry. In particular, for two
entries `A`, `B` with the same path the map holds the url of `B`. -/
theorem buildMap_last_write_wins (paths : List urlpath) (p : String)
    (hocc : p ∈ paths.map urlpath.path) :
    (∃ pre e post, paths = pre ++ e :: post ∧ e.path = p ∧ (∀ x ∈ post, x.path ≠ p) ∧
        (buildMap paths).lookup p = some e.url) ∧
      (∀ A B : urlpath, A.path = B.path → (buildMap [A, B]).lookup A.path = some B.url) := by
  constructor
  · obtain ⟨pre, e, post, hsplit, hp, hlast⟩ := exists_last_occurrence paths p hocc
    refine ⟨pre, e, post, hsplit, hp, hlast, ?_⟩
    subst hp
    rw [hsplit]
    exact lookup_buildMap_split pre post e hlast
  · intro A B hAB
    have h := lookup_buildMap_split [A] [] B (by simp)
    rw [hAB]
    simpa using h

/-- Witness for C3: the path `/a` occurs twice, with another entry between. -/
theorem buildMap_last_write_wins_witness :
    "/a" ∈ ([⟨"/a", "first"⟩, ⟨"/b", "other"⟩, ⟨"/a", "second"⟩] : List urlpath).map
        urlpath.path ∧
      ((∃ pre e post,
          ([⟨"/a", "first"⟩, ⟨"/b", "other"⟩, ⟨"/a", "second"⟩] : List urlpath)
              = pre ++ e :: post ∧
            e.path = "/a" ∧ (∀ x ∈ post, x.path ≠ "/a") ∧
            (buildMap [⟨"/a", "first"⟩, ⟨"/b", "other"⟩, ⟨"/a", "second"⟩]).lookup "/a"
              = some e.url) ∧
        (∀ A B : urlpath, A.path = B.path → (buildMap [A, B]).lookup A.path = some B.url)) :=
  ⟨by decide,
    buildMap_last_write_wins [⟨"/a", "first"⟩, ⟨"/b", "other"⟩, ⟨"/a", "second"⟩] "/a"
      (by decide)⟩

/-- C5: for every sequence of entries, the keys of the map built by `buildMap`
are pairwise distinct and are exactly the paths occurring in the sequence; so
the map has as many keys as the sequence has distinct paths, at most the
number of entries, and exactly that number when and only when the paths of
the entries are pairwise distinct. -/
theorem buildMap_keys (paths : List urlpath) :
    (∀ k, k ∈ (buildMap paths).keys ↔ ∃ e ∈ paths, e.path = k) ∧
      (buildMap paths).keys.Nodup ∧
      (buildMap paths).len = (buildMap paths).keys.length ∧
      (buildMap paths).len = (paths.map urlpath.path).toFinset.card ∧
      (buildMap paths).len ≤ paths.length ∧
      ((buildMap paths).len = paths.length ↔ (paths.map urlpath.path).Nodup) := by
  have hlen := len_buildMap paths
  have hsub : (paths.map urlpath.path).dedup.Sublist (paths.map urlpath.path) :=
    List.dedup_sublist _
  refine ⟨?_, ?_, ?_, ?_, ?_, ?_⟩
  · intro k
    have h := mem_keys_foldl paths GoMap.make k
    simpa [GoMap.make, GoMap.keys, buildMap] using h
  · exact nodup_keys_foldl paths GoMap.make (by simp [GoMap.make, GoMap.keys])
  · simp [GoMap.len, GoMap.keys]
  · rw [hlen, List.card_toFinset]
  · rw [hlen]
    simpa using hsub.length_le
  · rw [hlen]
    constructor
    · intro h
      have heq : (paths.map urlpath.path).dedup = paths.map urlpath.path :=
        hsub.eq_of_length (by simpa using h)
      exact List.dedup_eq_self.mp heq
    · intro h
      rw [h.dedup]
      simp

/-! ## Claims about `YAMLHandler` -/

/-- C4: whatever the YAML library does, `YAMLHandler` returns an error exactly
when `parseYaml` does; then the error is the one `parseYaml` returned and the
handler is nil, and `parseYaml` itself returned a nil slice, whatever the
library left in it. When `parseYaml` returns no error, `YAMLHandler` returns
no error and the handler `MapHandler(buildMap(paths), fallback)`. -/
theorem YAMLHandler_error_iff {W H E : Type} (unmarshalStrict : Bytes → List urlpath × Option E)
    (yml : Bytes) (fallback : H) :
    (((YAMLHandler unmarshalStrict yml fallback : Option (HandlerFunc W H) × Option E).2 ≠ none)
        ↔ (parseYaml unmarshalStrict yml).2 ≠ none) ∧
      ((parseYaml unmarshalStrict yml).2 = (unmarshalStrict yml).2) ∧
      (∀ e, (parseYaml unmarshalStrict yml).2 = some e →
        parseYaml unmarshalStrict yml = ([], some e) ∧
          (YAMLHandler unmarshalStrict yml fallback : Option (HandlerFunc W H) × Option E)
            = (none, some e)) ∧
      ((parseYaml unmarshalStrict yml).2 = none →
        (YAMLHandler unmarshalStrict yml fallback : Option (HandlerFunc W H) × Option E)
          = (some (MapHandler (buildMap (parseYaml unmarshalStrict yml).1) fallback), none)) := by
  unfold YAMLHandler parseYaml
  rcases hu : unmarshalStrict yml with ⟨paths, _ | err⟩
  · simp
  · simp

/-- C6: strict parsing. For a struct whose yaml keys are `path` and `url`
(the fields of `urlpath` among them), every document that is a sequence in
which some record carries a field with another name fails to load:
`parseYaml` returns a nil slice and an error, and `YAMLHandler` returns a nil
handler and that error. The field is not skipped. -/
theorem parseYaml_strict {W H : Type} (scan : Bytes → Option YamlNode)
    (fields : List StructField) (yml : Bytes) (items : List YamlNode)
    (pairs : List (String × YamlNode)) (key : String) (value : YamlNode) (fallback : H)
    (hschema : ∀ f ∈ fields, f.yamlKey = "path" ∨ f.yamlKey = "url")
    (hscan : scan yml = some (.sequence items))
    (hrec : YamlNode.mapping pairs ∈ items)
    (hfield : (key, value) ∈ pairs) (hpath : key ≠ "path") (hurl : key ≠ "url") :
    ∃ e, parseYaml (yamlUnmarshalStrict scan fields) yml = ([], some e) ∧
      (YAMLHandler (yamlUnmarshalStrict scan fields) yml fallback
          : Option (HandlerFunc W H) × Option YamlError) = (none, some e) := by
  have hnone : findField fields key = none := by
    apply findField_none_of_key
    intro f hf hk
    rcases hschema f hf with h | h
    · exact hpath (hk ▸ h)
    · exact hurl (hk ▸ h)
  have hmap : ∃ e, decodeRecord fields (.mapping pairs) = .error e := by
    simp only [decodeRecord]
    exact decodeMapping_unknown fields pairs [] _ ⟨(key, value), hfield, hnone⟩
  obtain ⟨e, he⟩ := decodeRecords_error fields items (.mapping pairs) hrec hmap
  have hu : yamlUnmarshalStrict scan fields yml = ([], some e) := by
    simp [yamlUnmarshalStrict, hscan, decodeDocument, he]
  have hp := parseYaml_of_error (yamlUnmarshalStrict scan fields) yml [] e hu
  exact ⟨e, hp, YAMLHandler_of_error _ yml fallback e hp⟩

/-- Witness for C6: the document whose one record has the extra field `note`,
decoded into `urlpath`. -/
theorem parseYaml_strict_witness :
    (∀ f ∈ urlpathFields, f.yamlKey = "path" ∨ f.yamlKey = "url") ∧
      scanExtraField extraFieldYaml = some (.sequence [.mapping extraFieldPairs]) ∧
      ("note", YamlNode.scalar "x") ∈ extraFieldPairs ∧
      ∃ e, parseYaml (yamlUnmarshalStrict scanExtraField urlpathFields) extraFieldYaml
          = ([], some e) ∧
        (YAMLHandler (yamlUnmarshalStrict scanExtraField urlpathFields) extraFieldYaml "fallback"
            : Option (HandlerFunc Unit String) × Option YamlError) = (none, some e) :=
  ⟨by simp [urlpathFields], by simp [scanExtraField], by simp [extraFieldPairs],
    parseYaml_strict scanExtraField urlpathFields extraFieldYaml [.mapping extraFieldPairs]
      extraFieldPairs "note" (.scalar "x") "fallback" (by simp [urlpathFields])
      (by simp [scanExtraField]) (by simp) (by simp [extraFieldPairs]) (by decide) (by decide)⟩

/-- C7, the code at the scenario document: whatever the syntax layer, once
the bytes compose to the two records of the scenario, decoding into `urlpath`
fails at the key `path`, because `urlpath` has no exported field; `parseYaml`
returns the error and `YAMLHandler` returns a nil handler. No request is
redirected. -/
theorem YAMLHandler_scenario {W H : Type} (scan : Bytes → Option YamlNode) (yml : Bytes)
    (fallback : H) (hscan : scan yml = some scenarioDoc) :
    parseYaml (yamlUnmarshalStrict scan urlpathFields) yml
        = ([], some (.unknownField "path")) ∧
      (YAMLHandler (yamlUnmarshalStrict scan urlpathFields) yml fallback
          : Option (HandlerFunc W H) × Option YamlError)
        = (none, some (.unknownField "path")) := by
  have hu : yamlUnmarshalStrict scan urlpathFields yml = ([], some (.unknownField "path")) := by
    simp [yamlUnmarshalStrict, hscan, scenarioDoc, decodeDocument, decodeRecords, decodeRecord,
      decodeMapping, findField_urlpathFields]
  have hp := parseYaml_of_error (yamlUnmarshalStrict scan urlpathFields) yml []
    (.unknownField "path") hu
  exact ⟨hp, YAMLHandler_of_error _ yml fallback _ hp⟩

/-- Witness for C7: the bytes of the scenario document. -/
theorem YAMLHandler_scenario_witness :
    scanScenario scenarioYaml = some scenarioDoc ∧
      parseYaml (yamlUnmarshalStrict scanScenario urlpathFields) scenarioYaml
        = ([], some (.unknownField "path")) ∧
      (YAMLHandler (yamlUnmarshalStrict scanScenario urlpathFields) scenarioYaml "fallback"
          : Option (HandlerFunc Unit String) × Option YamlError)
        = (none, some (.unknownField "path")) :=
  ⟨by simp [scanScenario],
    YAMLHandler_scenario scanScenario scenarioYaml "fallback" (by simp [scanScenario])⟩

/-- The same decoder on the same document, for the record type with exported
fields: the load succeeds, `/golang` is redirected to `https://golang.org` and
`/missing` goes to the fallback. What C7 describes needs the fields exported. -/
theorem YAMLHandler_scenario_exported :
    ∃ h : HandlerFunc Unit String,
      (YAMLHandler (yamlUnmarshalStrict scanScenario exportedFields) scenarioYaml "fallback"
          : Option (HandlerFunc Unit String) × Option YamlError) = (some h, none) ∧
        h () (getRequest "/golang")
          = [Call.Redirect () (getRequest "/golang") "https://golang.org" 302] ∧
        h () (getRequest "/missing") = [Call.ServeHTTP "fallback" () (getRequest "/missing")] := by
  have hp : parseYaml (yamlUnmarshalStrict scanScenario exportedFields) scenarioYaml
      = ([⟨"/golang", "https://golang.org"⟩,
          ⟨"/yaml-godoc", "https://godoc.org/gopkg.in/yaml.v2"⟩], none) := by
    decide
  refine ⟨_, YAMLHandler_of_ok _ scenarioYaml "fallback" _ hp, ?_, ?_⟩
  · decide
  · decide

/-- C10, the code at the failing input: the document of one record without
fields loads into one entry with the empty path and the empty url, the map
built from it has the one key `""`, and the handler returned by `YAMLHandler`
answers the request with the empty path by `http.Redirect` to `""`; the
fallback is not called. -/
theorem YAMLHandler_empty_record :
    parseYaml (yamlUnmarshalStrict scanEmptyRecord urlpathFields) emptyRecordYaml
        = ([⟨"", ""⟩], none) ∧
      (buildMap [⟨"", ""⟩]).keys = [""] ∧
      (buildMap [⟨"", ""⟩]).len = 1 ∧
      ∃ h : HandlerFunc Unit String,
        (YAMLHandler (yamlUnmarshalStrict scanEmptyRecord urlpathFields) emptyRecordYaml
            "fallback" : Option (HandlerFunc Unit String) × Option YamlError) = (some h, none) ∧
          h () connectRequest = [Call.Redirect () connectRequest "" 302] ∧
          h () connectRequest ≠ [Call.ServeHTTP "fallback" () connectRequest] := by
  have hp : parseYaml (yamlUnmarshalStrict scanEmptyRecord urlpathFields) emptyRecordYaml
      = ([⟨"", ""⟩], none) := by
    decide
  refine ⟨hp, by decide, by decide, _, YAMLHandler_of_ok _ emptyRecordYaml "fallback" _ hp, ?_, ?_⟩
  · decide
  · decide

end urlshort
